import Mathlib

/-!
Verification of the VYAAN exercise-tracking core.

Shallow embedding of `config.py`, `util.py` and `exerciseTracker.py`.
The tracker state machine is embedded over exact rationals (the Python
code does real-valued arithmetic on angles; comparisons and means are
modelled exactly).  The geometric angle computation of
`AngleCalculator.calculateAngle` is embedded over the reals, with an
explicit `atan2` following numpy's `arctan2` convention (range
`(-pi, pi]`, and `arctan2 0 0 = 0`).
-/

namespace VYAAN

/-- Embeds `config.ExerciseConfig` (config.py). -/
structure ExerciseConfig where
  name : String
  landMarks : List String
  extendedThreshold : ℚ
  flexedThreshold : ℚ
  side : String
deriving Repr, DecidableEq

/-- The predefined knee-flexion configuration (`ExerciseConfigs.CONFIGS`). -/
def kneeFlexionConfig : ExerciseConfig :=
  { name := "Knee Flexion"
    landMarks := ["HIP", "KNEE", "ANKLE"]
    extendedThreshold := 170
    flexedThreshold := 108
    side := "RIGHT" }

/-- Embeds `numpy.mean` on a list of rationals (sum divided by length). -/
def listMean (l : List ℚ) : ℚ := l.sum / (l.length : ℚ)

/-- Embeds `AngleCalculator.smoothAngles` (util.py).  The Python function
mutates the caller's list (append, then `pop(0)` when the length exceeds
`maxHistory`) and returns the mean; here the mutation is made explicit:
the result is the new history together with the returned mean. -/
def smoothAngles (angleHistory : List ℚ) (newAngle : ℚ) (maxHistory : ℕ) :
    List ℚ × ℚ :=
  let h := angleHistory ++ [newAngle]
  let h := if h.length > maxHistory then h.tail else h
  (h, listMean h)

/-- Embeds `ExerciseState` (exerciseTracker.py).  `stage` is a Python
`str`-or-`None` field, modelled as `Option String`; the counter is a
Python `int`, modelled as `ℤ`. -/
structure ExerciseState where
  counter : ℤ
  stage : Option String
  angleHistory : List ℚ
  currentAngle : ℚ
deriving Repr, DecidableEq

/-- The state built by `ExerciseState()` with its dataclass defaults. -/
def initialState : ExerciseState :=
  { counter := 0, stage := none, angleHistory := [], currentAngle := 0 }

/-- The bound `self.maxHistoryLength = 10` set in `ExerciseTracker.__init__`. -/
def maxHistoryLength : ℕ := 10

/-- Embeds `ExerciseTracker.updateState` (exerciseTracker.py).  Returns
the updated state together with the returned boolean
(`self.state.counter > previousCounter`). -/
def updateState (cfg : ExerciseConfig) (s : ExerciseState) (angle : ℚ) :
    ExerciseState × Bool :=
  let r := smoothAngles s.angleHistory angle maxHistoryLength
  let smoothedAngle := r.2
  let s1 : ExerciseState :=
    { s with angleHistory := r.1, currentAngle := smoothedAngle }
  let previousCounter := s1.counter
  let s2 : ExerciseState :=
    if smoothedAngle > cfg.extendedThreshold then
      { s1 with stage := some "extended" }
    else if smoothedAngle < cfg.flexedThreshold ∧ s1.stage = some "extended" then
      { s1 with stage := some "flexed", counter := s1.counter + 1 }
    else s1
  (s2, decide (s2.counter > previousCounter))

/-- Embeds `ExerciseTracker.resetCounter` (exerciseTracker.py). -/
def resetCounter (s : ExerciseState) : ExerciseState :=
  { s with counter := 0, stage := none, angleHistory := [] }

/-- The record returned by `ExerciseTracker.getStats`. -/
structure Stats where
  exerciseName : String
  counter : ℤ
  stage : String
  currentAngle : ℚ
  averageAngle : ℚ
  extendedThreshold : ℚ
  flexedThreshold : ℚ
deriving Repr, DecidableEq

/-- Embeds `ExerciseTracker.getStats` (exerciseTracker.py).  The Python
`self.state.stage or 'READY'` yields `'READY'` exactly when the stage is
`None` (the stage strings `'extended'`/`'flexed'` are truthy), embedded
as `Option.getD`. -/
def getStats (cfg : ExerciseConfig) (s : ExerciseState) : Stats :=
  { exerciseName := cfg.name
    counter := s.counter
    stage := s.stage.getD "READY"
    currentAngle := s.currentAngle
    averageAngle :=
      if s.angleHistory = [] then 0 else listMean s.angleHistory
    extendedThreshold := cfg.extendedThreshold
    flexedThreshold := cfg.flexedThreshold }

/-- Embeds `ExerciseTracker.getDisplayStage` (exerciseTracker.py). -/
def getDisplayStage (s : ExerciseState) : String :=
  match s.stage with
  | some st => st.toUpper
  | none => "READY"

/-- The stage/counter transition performed by `updateState` as a function
of the smoothed angle alone (lines 62-66 of exerciseTracker.py); used to
state temporal claims that quantify over sequences of smoothed angles. -/
def classifyStep (cfg : ExerciseConfig) (p : Option String × ℤ)
    (smoothedAngle : ℚ) : Option String × ℤ :=
  if smoothedAngle > cfg.extendedThreshold then (some "extended", p.2)
  else if smoothedAngle < cfg.flexedThreshold ∧ p.1 = some "extended" then
    (some "flexed", p.2 + 1)
  else p

/-- Iterate `classifyStep` over a sequence of smoothed angles. -/
def runClassify (cfg : ExerciseConfig) (p : Option String × ℤ)
    (l : List ℚ) : Option String × ℤ :=
  l.foldl (classifyStep cfg) p

/-- Feed a list of raw samples through `smoothAngles` one by one starting
from a given history, returning the final history (each call's returned
value is the `listMean` of the history it produces). -/
def smoothRun (m : ℕ) : List ℚ → List ℚ → List ℚ
  | h, [] => h
  | h, a :: t => smoothRun m (smoothAngles h a m).1 t

/-- Reachable tracker states: the constructor state, closed under
`updateState` (with any input angle) and `resetCounter`. -/
inductive Reachable (cfg : ExerciseConfig) : ExerciseState → Prop
  | init : Reachable cfg initialState
  | update {s : ExerciseState} (a : ℚ) :
      Reachable cfg s → Reachable cfg (updateState cfg s a).1
  | reset {s : ExerciseState} :
      Reachable cfg s → Reachable cfg (resetCounter s)

/-! ## Geometry: `AngleCalculator.calculateAngle` over the reals -/

/-- A 2-D point, the `[x, y]` lists taken by `calculateAngle`. -/
structure Point where
  x : ℝ
  y : ℝ

/-- numpy's `arctan2 y x`: the angle of the vector `(x, y)`, in
`(-pi, pi]`, with `arctan2 0 0 = 0`. -/
noncomputable def atan2 (y x : ℝ) : ℝ :=
  if 0 < x then Real.arctan (y / x)
  else if x < 0 then
    (if 0 ≤ y then Real.arctan (y / x) + Real.pi
     else Real.arctan (y / x) - Real.pi)
  else if 0 < y then Real.pi / 2
  else if y < 0 then -(Real.pi / 2)
  else 0

/-- Embeds `AngleCalculator.calculateAngle` (util.py): difference of the
two ray angles, absolute value, converted to degrees, folded above 180.
numpy raises no exception on these inputs (`arctan2` is total, with
`arctan2 0 0 = 0`), so the `except` branch returning `0.0` is not
reachable for numeric input and is not modelled. -/
noncomputable def calculateAngle (pointA pointB pointC : Point) : ℝ :=
  let radians := atan2 (pointC.y - pointB.y) (pointC.x - pointB.x)
               - atan2 (pointA.y - pointB.y) (pointA.x - pointB.x)
  let angle := |radians * 180 / Real.pi|
  if angle > 180 then 360 - angle else angle

/-! ## Helper lemmas about the tracker -/

/-- The state produced by `updateState`, expressed through `classifyStep`
and `smoothAngles`. -/
lemma updateState_fst (cfg : ExerciseConfig) (s : ExerciseState) (a : ℚ) :
    (updateState cfg s a).1 =
      { counter := (classifyStep cfg (s.stage, s.counter)
            (smoothAngles s.angleHistory a maxHistoryLength).2).2
        stage := (classifyStep cfg (s.stage, s.counter)
            (smoothAngles s.angleHistory a maxHistoryLength).2).1
        angleHistory := (smoothAngles s.angleHistory a maxHistoryLength).1
        currentAngle := (smoothAngles s.angleHistory a maxHistoryLength).2 } := by
  by_cases h1 :
      (smoothAngles s.angleHistory a maxHistoryLength).2 > cfg.extendedThreshold
  · simp [updateState, classifyStep, h1]
  · by_cases h2 :
        (smoothAngles s.angleHistory a maxHistoryLength).2 < cfg.flexedThreshold
          ∧ s.stage = some "extended"
    · simp [updateState, classifyStep, h1, h2]
    · simp [updateState, classifyStep, h1, h2]

/-- The boolean returned by `updateState` is the comparison of the new
counter with the previous one. -/
lemma updateState_snd (cfg : ExerciseConfig) (s : ExerciseState) (a : ℚ) :
    (updateState cfg s a).2 = decide (s.counter < (updateState cfg s a).1.counter) := by
  by_cases h1 :
      (smoothAngles s.angleHistory a maxHistoryLength).2 > cfg.extendedThreshold
  · simp [updateState, h1]
  · by_cases h2 :
        (smoothAngles s.angleHistory a maxHistoryLength).2 < cfg.flexedThreshold
          ∧ s.stage = some "extended"
    · simp [updateState, h1, h2]
    · simp [updateState, h1, h2]

/-- One smoothing call keeps the history length within the bound. -/
lemma smoothAngles_length (h : List ℚ) (a : ℚ) (m : ℕ) (hh : h.length ≤ m) :
    (smoothAngles h a m).1.length ≤ m := by
  unfold smoothAngles
  dsimp only
  split_ifs with hlen
  · simp only [List.length_tail, List.length_append, List.length_singleton]
    omega
  · simp only [List.length_append, List.length_singleton] at hlen ⊢
    omega

/-- Invariant of reachable tracker states: the stage is one of the three
values the code ever writes, the counter is non-negative, and the history
length is bounded. -/
lemma reachable_inv (cfg : ExerciseConfig) (s : ExerciseState)
    (h : Reachable cfg s) :
    (s.stage = none ∨ s.stage = some "extended" ∨ s.stage = some "flexed")
    ∧ 0 ≤ s.counter ∧ s.angleHistory.length ≤ maxHistoryLength := by
  induction h with
  | init => simp [initialState, maxHistoryLength]
  | update a hs ih =>
      obtain ⟨hst, hc, hl⟩ := ih
      rw [updateState_fst]
      refine ⟨?_, ?_, smoothAngles_length _ _ _ hl⟩
      · unfold classifyStep
        dsimp only
        split_ifs <;> simp [hst]
      · unfold classifyStep
        dsimp only
        split_ifs <;> dsimp only <;> omega
  | reset hs ih => simp [resetCounter]

lemma runClassify_nil (cfg : ExerciseConfig) (p : Option String × ℤ) :
    runClassify cfg p [] = p := rfl

lemma runClassify_cons (cfg : ExerciseConfig) (p : Option String × ℤ)
    (a : ℚ) (l : List ℚ) :
    runClassify cfg p (a :: l) = runClassify cfg (classifyStep cfg p a) l := rfl

lemma runClassify_append (cfg : ExerciseConfig) (p : Option String × ℤ)
    (l1 l2 : List ℚ) :
    runClassify cfg p (l1 ++ l2) = runClassify cfg (runClassify cfg p l1) l2 :=
  List.foldl_append _ _ _ _

/-- A run over inputs that individually leave the pair unchanged leaves
the pair unchanged. -/
lemma runClassify_const (cfg : ExerciseConfig) (p : Option String × ℤ)
    (l : List ℚ) (h : ∀ x ∈ l, classifyStep cfg p x = p) :
    runClassify cfg p l = p := by
  induction l with
  | nil => rfl
  | cons a t ih =>
      rw [runClassify_cons, h a (by simp)]
      exact ih fun x hx => h x (by simp [hx])

/-- An angle above the extended threshold always classifies to the
extended stage, keeping the counter. -/
lemma classifyStep_ext (cfg : ExerciseConfig) (p : Option String × ℤ)
    (x : ℚ) (hx : cfg.extendedThreshold < x) :
    classifyStep cfg p x = (some "extended", p.2) := by
  simp [classifyStep, hx]

/-- An angle in the closed dead band changes nothing, from any stage. -/
lemma classifyStep_band (cfg : ExerciseConfig) (p : Option String × ℤ)
    (x : ℚ) (hx1 : cfg.flexedThreshold ≤ x) (hx2 : x ≤ cfg.extendedThreshold) :
    classifyStep cfg p x = p := by
  have h1 : ¬cfg.extendedThreshold < x := not_lt.mpr hx2
  have h2 : ¬x < cfg.flexedThreshold := not_lt.mpr hx1
  simp [classifyStep, h1, h2]

/-- A low angle changes nothing unless the stage is extended. -/
lemma classifyStep_low (cfg : ExerciseConfig) (p : Option String × ℤ)
    (x : ℚ) (hcfg : cfg.flexedThreshold ≤ cfg.extendedThreshold)
    (hx : x < cfg.flexedThreshold) (hst : p.1 ≠ some "extended") :
    classifyStep cfg p x = p := by
  have h1 : ¬cfg.extendedThreshold < x := not_lt.mpr (le_of_lt (lt_of_lt_of_le hx hcfg))
  simp [classifyStep, h1, hst]

/-- Running over a block of angles all above the extended threshold keeps
the counter, and ends in the extended stage once the block is nonempty. -/
lemma runClassify_ext_block (cfg : ExerciseConfig) (p : Option String × ℤ)
    (l : List ℚ) (hl : ∀ x ∈ l, cfg.extendedThreshold < x) :
    runClassify cfg p l = if l = [] then p else (some "extended", p.2) := by
  induction l generalizing p with
  | nil => rfl
  | cons a t ih =>
      rw [runClassify_cons, classifyStep_ext cfg p a (hl a (by simp)),
        ih _ fun x hx => hl x (by simp [hx])]
      simp

/-- The mean of `n ≥ 1` copies of `v` is `v`. -/
lemma listMean_replicate (n : ℕ) (v : ℚ) (hn : n ≠ 0) :
    listMean (List.replicate n v) = v := by
  have hn' : (n : ℚ) ≠ 0 := Nat.cast_ne_zero.mpr hn
  simp only [listMean, List.sum_replicate, List.length_replicate, nsmul_eq_mul]
  field_simp

/-- Feeding `n` copies of `v` into an all-`v` history of length `k ≤ 10`
yields an all-`v` history of length `min (k + n) 10`. -/
lemma smoothRun_replicate (v : ℚ) :
    ∀ (n k : ℕ), k ≤ 10 →
      smoothRun 10 (List.replicate k v) (List.replicate n v)
        = List.replicate (min (k + n) 10) v := by
  intro n
  induction n with
  | zero =>
      intro k hk
      simp [smoothRun, Nat.min_eq_left hk]
  | succ n ih =>
      intro k hk
      rw [List.replicate_succ, smoothRun]
      have happ : List.replicate k v ++ [v] = List.replicate (k + 1) v :=
        (List.replicate_succ' k v).symm
      by_cases hck : k = 10
      · subst hck
        have h1 : (smoothAngles (List.replicate 10 v) v 10).1
            = List.replicate 10 v := by
          simp [smoothAngles, happ, List.tail_replicate]
        rw [h1, ih 10 le_rfl]
        congr 1
        omega
      · have hklt : k + 1 ≤ 10 := by omega
        have h1 : (smoothAngles (List.replicate k v) v 10).1
            = List.replicate (k + 1) v := by
          simp only [smoothAngles, happ]
          have hno : ¬(List.replicate (k + 1) v).length > 10 := by
            rw [List.length_replicate]
            omega
          rw [if_neg hno]
        rw [h1, ih (k + 1) hklt]
        congr 1
        omega

/-- C6: `smoothAngles` appends the new sample to the history, evicts from
the front when the length exceeds the capacity, and returns the
arithmetic mean of the resulting history; with capacity 10, the 15th of
15 identical samples `v` returns exactly `v`, and nine `0` samples
followed by one `100` return `10`; with capacity 1 (and a history already
bounded by 1 sample) it returns the raw sample unchanged. -/
theorem smoothAngles_contract :
    (∀ (h : List ℚ) (a : ℚ) (m : ℕ),
        (smoothAngles h a m).1
            = (if (h ++ [a]).length > m then (h ++ [a]).tail else h ++ [a])
          ∧ (smoothAngles h a m).2 = listMean (smoothAngles h a m).1)
    ∧ (∀ v : ℚ,
        (smoothAngles (smoothRun 10 [] (List.replicate 14 v)) v 10).2 = v)
    ∧ (smoothAngles (smoothRun 10 [] (List.replicate 9 (0 : ℚ))) 100 10).2 = 10
    ∧ (∀ (h : List ℚ) (a : ℚ), h.length ≤ 1 → (smoothAngles h a 1).2 = a) := by
  refine ⟨fun h a m => ⟨rfl, rfl⟩, ?_, ?_, ?_⟩
  · intro v
    have h0 : smoothRun 10 [] (List.replicate 14 v) = List.replicate 10 v := by
      have h14 := smoothRun_replicate v 14 0 (by norm_num)
      simpa using h14
    have happ : List.replicate 10 v ++ [v] = List.replicate 11 v :=
      (List.replicate_succ' 10 v).symm
    rw [h0]
    simp only [smoothAngles, happ, List.length_replicate]
    norm_num [List.tail_replicate]
    exact listMean_replicate 10 v (by norm_num)
  · norm_num [smoothRun, smoothAngles, listMean]
  · intro h a hh
    match h with
    | [] => simp [smoothAngles, listMean]
    | [x] => simp [smoothAngles, listMean]
    | x :: y :: t => simp at hh

/-- Witness for C6: capacity 1 on a one-sample history returns the raw
sample. -/
theorem smoothAngles_contract_witness :
    (smoothAngles [5] 7 1).2 = 7 :=
  smoothAngles_contract.2.2.2 [5] 7 (by decide)

/-- C8: after `resetCounter` the counter is 0, the stage is the unset
value (reported as "READY" by both `getStats` and `getDisplayStage`), and
the angle history is empty, regardless of the prior state. -/
theorem resetCounter_spec (cfg : ExerciseConfig) (s : ExerciseState) :
    (resetCounter s).counter = 0
    ∧ (resetCounter s).stage = none
    ∧ (resetCounter s).angleHistory = []
    ∧ (getStats cfg (resetCounter s)).stage = "READY"
    ∧ getDisplayStage (resetCounter s) = "READY" := by
  simp [resetCounter, getStats, getDisplayStage]

/-- C9: every reachable tracker state has at most `maxHistoryLength = 10`
entries in its angle history; one `updateState` call preserves the bound
(evicting the oldest sample when it would be exceeded), and
`resetCounter` empties the history. -/
theorem angleHistory_bounded (cfg : ExerciseConfig) :
    (∀ s : ExerciseState, Reachable cfg s →
        s.angleHistory.length ≤ maxHistoryLength)
    ∧ (∀ (s : ExerciseState) (a : ℚ),
        s.angleHistory.length ≤ maxHistoryLength →
        (updateState cfg s a).1.angleHistory.length ≤ maxHistoryLength)
    ∧ (∀ s : ExerciseState, (resetCounter s).angleHistory = []) := by
  refine ⟨fun s hs => (reachable_inv cfg s hs).2.2, fun s a hl => ?_,
    fun s => rfl⟩
  rw [updateState_fst]
  exact smoothAngles_length _ _ _ hl

/-- Witness for C9 at the initial state and one concrete update. -/
theorem angleHistory_bounded_witness :
    initialState.angleHistory.length ≤ maxHistoryLength
    ∧ (updateState kneeFlexionConfig initialState 5).1.angleHistory.length
        ≤ maxHistoryLength :=
  ⟨(angleHistory_bounded kneeFlexionConfig).1 initialState Reachable.init,
    (angleHistory_bounded kneeFlexionConfig).2.1 initialState 5 (by decide)⟩

/-- C5 counterexample: after one update with a high raw angle, the
reachable state has stage `'extended'` and `getStats` reports that raw
lowercase string, which is none of "READY", "EXTENDED", "FLEXED" (only
`getDisplayStage` uppercases). -/
theorem getStats_stage_not_uppercase :
    (getStats kneeFlexionConfig
        (updateState kneeFlexionConfig initialState 200).1).stage = "extended"
    ∧ ("extended" : String) ≠ "READY"
    ∧ ("extended" : String) ≠ "EXTENDED"
    ∧ ("extended" : String) ≠ "FLEXED" := by
  refine ⟨?_, by decide, by decide, by decide⟩
  norm_num [getStats, updateState, smoothAngles, listMean, kneeFlexionConfig,
    initialState, maxHistoryLength]

/-- C5 amended: for every reachable tracker state, the stage field of the
`getStats` record is one of the strings "READY", "extended", "flexed",
and its counter field is non-negative. -/
theorem getStats_fields (cfg : ExerciseConfig) (s : ExerciseState)
    (h : Reachable cfg s) :
    ((getStats cfg s).stage = "READY" ∨ (getStats cfg s).stage = "extended"
      ∨ (getStats cfg s).stage = "flexed")
    ∧ 0 ≤ (getStats cfg s).counter := by
  obtain ⟨hst, hc, -⟩ := reachable_inv cfg s h
  refine ⟨?_, hc⟩
  rcases hst with h0 | h0 | h0 <;> simp [getStats, h0]

/-- Witness for C5 (amended) at the initial state. -/
theorem getStats_fields_witness :
    ((getStats kneeFlexionConfig initialState).stage = "READY"
      ∨ (getStats kneeFlexionConfig initialState).stage = "extended"
      ∨ (getStats kneeFlexionConfig initialState).stage = "flexed")
    ∧ 0 ≤ (getStats kneeFlexionConfig initialState).counter :=
  getStats_fields kneeFlexionConfig initialState Reachable.init

/-- C1: in a single `updateState` call (with the thresholds in the
documented order, flexed below extended), the counter is incremented by
exactly 1 with the stage set to flexed exactly when the smoothed angle is
below the flexed threshold and the current stage is extended; in every
other case the counter is unchanged; the counter never decreases; and the
returned boolean is true exactly when the counter increased. -/
theorem updateState_transition (cfg : ExerciseConfig) (s : ExerciseState)
    (a : ℚ) (hcfg : cfg.flexedThreshold < cfg.extendedThreshold) :
    (((updateState cfg s a).1.counter = s.counter + 1
        ∧ (updateState cfg s a).1.stage = some "flexed")
      ↔ ((smoothAngles s.angleHistory a maxHistoryLength).2 < cfg.flexedThreshold
          ∧ s.stage = some "extended"))
    ∧ (¬((smoothAngles s.angleHistory a maxHistoryLength).2 < cfg.flexedThreshold
          ∧ s.stage = some "extended") →
        (updateState cfg s a).1.counter = s.counter)
    ∧ s.counter ≤ (updateState cfg s a).1.counter
    ∧ ((updateState cfg s a).2 = true
        ↔ s.counter < (updateState cfg s a).1.counter) := by
  have hmono : s.counter ≤ (updateState cfg s a).1.counter := by
    rw [updateState_fst]
    unfold classifyStep
    dsimp only
    split_ifs <;> dsimp only <;> omega
  have hret : (updateState cfg s a).2 = true
      ↔ s.counter < (updateState cfg s a).1.counter := by
    rw [updateState_snd]
    simp
  refine ⟨?_, ?_, hmono, hret⟩
  · by_cases h1 :
        (smoothAngles s.angleHistory a maxHistoryLength).2 > cfg.extendedThreshold
    · have hn2 : ¬((smoothAngles s.angleHistory a maxHistoryLength).2
          < cfg.flexedThreshold ∧ s.stage = some "extended") := by
        rintro ⟨hlt, -⟩
        exact absurd h1 (not_lt.mpr (le_of_lt (hlt.trans hcfg)))
      rw [updateState_fst]
      simp [classifyStep, h1, hn2]
    · by_cases h2 :
          (smoothAngles s.angleHistory a maxHistoryLength).2 < cfg.flexedThreshold
            ∧ s.stage = some "extended"
      · rw [updateState_fst]
        simp [classifyStep, h1, h2]
      · rw [updateState_fst]
        simp only [classifyStep, if_neg h1, if_neg h2]
        constructor
        · rintro ⟨hc, -⟩
          omega
        · intro hc
          exact absurd hc h2
  · intro hn
    by_cases h1 :
        (smoothAngles s.angleHistory a maxHistoryLength).2 > cfg.extendedThreshold
    · rw [updateState_fst]
      simp [classifyStep, h1]
    · rw [updateState_fst]
      simp [classifyStep, h1, hn]

/-- Witness for C1: one concrete call on the knee-flexion tracker. -/
theorem updateState_transition_witness :
    (updateState kneeFlexionConfig initialState 200).1.counter
      = initialState.counter := by
  have h := updateState_transition kneeFlexionConfig initialState 200
    (by norm_num [kneeFlexionConfig])
  exact h.2.1 (by simp [initialState])

/-- C2: over any full cycle of smoothed angles — a nonempty block above
the extended threshold, a descent through the dead band, a nonempty block
below the flexed threshold (of any length), a dead-band ascent, and a
block above the extended threshold again — the stage/counter machine of
`updateState` (its `classifyStep`, as the bridge conjunct states)
increments the counter by exactly 1, from any starting stage. -/
theorem counter_once_per_cycle
    (cfg : ExerciseConfig) (st : Option String) (c : ℤ) (A M1 F M2 E : List ℚ)
    (hcfg : cfg.flexedThreshold ≤ cfg.extendedThreshold)
    (hA : A ≠ []) (hAx : ∀ x ∈ A, cfg.extendedThreshold < x)
    (hM1 : ∀ x ∈ M1, cfg.flexedThreshold ≤ x ∧ x ≤ cfg.extendedThreshold)
    (hF : F ≠ []) (hFx : ∀ x ∈ F, x < cfg.flexedThreshold)
    (hM2 : ∀ x ∈ M2, cfg.flexedThreshold ≤ x ∧ x ≤ cfg.extendedThreshold)
    (hEx : ∀ x ∈ E, cfg.extendedThreshold < x) :
    (runClassify cfg (st, c) (A ++ M1 ++ F ++ M2 ++ E)).2 = c + 1
    ∧ (∀ (s : ExerciseState) (a : ℚ),
        ((updateState cfg s a).1.stage, (updateState cfg s a).1.counter)
          = classifyStep cfg (s.stage, s.counter)
              (smoothAngles s.angleHistory a maxHistoryLength).2) := by
  constructor
  · obtain ⟨a, A', rfl⟩ := List.exists_cons_of_ne_nil hA
    obtain ⟨f, F', rfl⟩ := List.exists_cons_of_ne_nil hF
    rw [runClassify_append, runClassify_append, runClassify_append,
      runClassify_append]
    have hArun : runClassify cfg (st, c) (a :: A') = (some "extended", c) := by
      rw [runClassify_ext_block cfg _ _ hAx]
      simp
    rw [hArun,
      runClassify_const cfg _ M1 fun x hx =>
        classifyStep_band cfg _ x (hM1 x hx).1 (hM1 x hx).2,
      runClassify_cons]
    have hstep : classifyStep cfg (some "extended", c) f = (some "flexed", c + 1) := by
      have hflt : f < cfg.flexedThreshold := hFx f (by simp)
      have h1 : ¬cfg.extendedThreshold < f :=
        not_lt.mpr (le_of_lt (lt_of_lt_of_le hflt hcfg))
      simp [classifyStep, h1, hflt]
    rw [hstep,
      runClassify_const cfg _ F' (fun x hx =>
        classifyStep_low cfg _ x hcfg (hFx x (by simp [hx])) (by simp)),
      runClassify_const cfg _ M2 fun x hx =>
        classifyStep_band cfg _ x (hM2 x hx).1 (hM2 x hx).2,
      runClassify_ext_block cfg _ _ hEx]
    split_ifs <;> rfl
  · intro s a
    rw [updateState_fst]

/-- Witness for C2: a concrete cycle on the knee-flexion thresholds. -/
theorem counter_once_per_cycle_witness :
    (runClassify kneeFlexionConfig (none, 0)
        ([(200 : ℚ)] ++ [150] ++ [50] ++ [] ++ [200])).2 = 0 + 1 := by
  have h := counter_once_per_cycle kneeFlexionConfig none 0
    [200] [150] [50] [] [200]
    (by norm_num [kneeFlexionConfig])
    (by simp) (by norm_num [kneeFlexionConfig])
    (by norm_num [kneeFlexionConfig])
    (by simp) (by norm_num [kneeFlexionConfig])
    (by norm_num [kneeFlexionConfig])
    (by norm_num [kneeFlexionConfig])
  exact h.1

/-- C3: when the smoothed angle of a call lies strictly inside the dead
band, or below the flexed threshold while the stage is not extended, the
call changes neither stage nor counter (only the history and
`currentAngle` are updated), and any sequence of such smoothed angles
produces zero increments and no stage change. -/
theorem deadband_no_change (cfg : ExerciseConfig) (s : ExerciseState) (a : ℚ)
    (hcfg : cfg.flexedThreshold ≤ cfg.extendedThreshold)
    (hs : (cfg.flexedThreshold < (smoothAngles s.angleHistory a maxHistoryLength).2
            ∧ (smoothAngles s.angleHistory a maxHistoryLength).2
                < cfg.extendedThreshold)
          ∨ ((smoothAngles s.angleHistory a maxHistoryLength).2
                < cfg.flexedThreshold
            ∧ s.stage ≠ some "extended")) :
    ((updateState cfg s a).1.stage = s.stage
      ∧ (updateState cfg s a).1.counter = s.counter
      ∧ (updateState cfg s a).1.angleHistory
          = (smoothAngles s.angleHistory a maxHistoryLength).1
      ∧ (updateState cfg s a).1.currentAngle
          = (smoothAngles s.angleHistory a maxHistoryLength).2)
    ∧ (∀ (st : Option String) (c : ℤ) (L : List ℚ),
        (∀ x ∈ L, (cfg.flexedThreshold < x ∧ x < cfg.extendedThreshold)
          ∨ (x < cfg.flexedThreshold ∧ st ≠ some "extended")) →
        runClassify cfg (st, c) L = (st, c)) := by
  constructor
  · have hstep : classifyStep cfg (s.stage, s.counter)
        (smoothAngles s.angleHistory a maxHistoryLength).2
          = (s.stage, s.counter) := by
      rcases hs with ⟨h1, h2⟩ | ⟨h1, h2⟩
      · exact classifyStep_band cfg _ _ (le_of_lt h1) (le_of_lt h2)
      · exact classifyStep_low cfg _ _ hcfg h1 h2
    rw [updateState_fst, hstep]
    exact ⟨rfl, rfl, rfl, rfl⟩
  · intro st c L hL
    refine runClassify_const cfg _ L fun x hx => ?_
    rcases hL x hx with ⟨h1, h2⟩ | ⟨h1, h2⟩
    · exact classifyStep_band cfg _ x (le_of_lt h1) (le_of_lt h2)
    · exact classifyStep_low cfg _ x hcfg h1 h2

/-- Witness for C3: a dead-band angle on the knee-flexion tracker. -/
theorem deadband_no_change_witness :
    (updateState kneeFlexionConfig initialState 150).1.stage = initialState.stage
    ∧ (updateState kneeFlexionConfig initialState 150).1.counter
        = initialState.counter := by
  have h := deadband_no_change kneeFlexionConfig initialState 150
    (by norm_num [kneeFlexionConfig])
    (Or.inl (by norm_num [smoothAngles, listMean, kneeFlexionConfig,
      initialState, maxHistoryLength]))
  exact ⟨h.1.1, h.1.2.1⟩

/-! ## Geometry lemmas -/

/-- The value of `atan2` always lies in `(-pi, pi]`. -/
lemma atan2_range (y x : ℝ) : -Real.pi < atan2 y x ∧ atan2 y x ≤ Real.pi := by
  have hpi := Real.pi_pos
  unfold atan2
  split_ifs with h1 h2 h3 h4 h5
  · have hl := Real.neg_pi_div_two_lt_arctan (y / x)
    have hu := Real.arctan_lt_pi_div_two (y / x)
    constructor <;> linarith
  · have hd : y / x ≤ 0 := div_nonpos_of_nonneg_of_nonpos h3 (le_of_lt h2)
    have harc : Real.arctan (y / x) ≤ 0 := by
      rw [← Real.arctan_zero]
      exact Real.arctan_strictMono.monotone hd
    have hl := Real.neg_pi_div_two_lt_arctan (y / x)
    constructor <;> linarith
  · have hd : 0 < y / x := div_pos_of_neg_of_neg (not_le.mp h3) h2
    have harc : 0 < Real.arctan (y / x) := by
      rw [← Real.arctan_zero]
      exact Real.arctan_strictMono hd
    have hu := Real.arctan_lt_pi_div_two (y / x)
    constructor <;> linarith
  · constructor <;> linarith
  · constructor <;> linarith
  · constructor <;> linarith

/-- The folded absolute angle difference is always in `[0, 180]`. -/
lemma calculateAngle_bounds (A B C : Point) :
    0 ≤ calculateAngle A B C ∧ calculateAngle A B C ≤ 180 := by
  obtain ⟨h1l, h1u⟩ := atan2_range (C.y - B.y) (C.x - B.x)
  obtain ⟨h2l, h2u⟩ := atan2_range (A.y - B.y) (A.x - B.x)
  have hpi := Real.pi_pos
  unfold calculateAngle
  dsimp only
  set r := atan2 (C.y - B.y) (C.x - B.x) - atan2 (A.y - B.y) (A.x - B.x) with hr
  have hrabs : |r * 180 / Real.pi| < 360 := by
    rw [abs_div, abs_of_pos hpi, abs_mul]
    have h180 : |(180 : ℝ)| = 180 := by norm_num
    rw [h180, div_lt_iff₀ hpi]
    have hrb : |r| < 2 * Real.pi := by
      rw [abs_lt]
      constructor <;> [linarith; linarith]
    nlinarith
  split_ifs with hgt
  · constructor <;> linarith
  · exact ⟨abs_nonneg _, not_lt.mp hgt⟩

/-- C7: `calculateAngle` always returns a value in `[0, 180]` (a result
above 180 degrees is folded to 360 minus the result); it returns 90 for
proximal (1,0), vertex (0,0), distal (0,1), and 180 for proximal (1,0),
vertex (0,0), distal (-1,0). -/
theorem calculateAngle_range :
    (∀ A B C : Point, 0 ≤ calculateAngle A B C ∧ calculateAngle A B C ≤ 180)
    ∧ calculateAngle ⟨1, 0⟩ ⟨0, 0⟩ ⟨0, 1⟩ = 90
    ∧ calculateAngle ⟨1, 0⟩ ⟨0, 0⟩ ⟨-1, 0⟩ = 180 := by
  have hpi := Real.pi_pos
  refine ⟨calculateAngle_bounds, ?_, ?_⟩
  · have e1 : atan2 ((1 : ℝ) - 0) ((0 : ℝ) - 0) = Real.pi / 2 := by
      unfold atan2
      norm_num
    have e2 : atan2 ((0 : ℝ) - 0) ((1 : ℝ) - 0) = 0 := by
      unfold atan2
      norm_num [Real.arctan_zero]
    unfold calculateAngle
    dsimp only
    rw [e1, e2]
    have e3 : (Real.pi / 2 - 0) * 180 / Real.pi = 90 := by
      field_simp
      ring
    rw [e3]
    norm_num
  · have e1 : atan2 ((0 : ℝ) - 0) ((-1 : ℝ) - 0) = Real.pi := by
      unfold atan2
      norm_num [Real.arctan_zero]
    have e2 : atan2 ((0 : ℝ) - 0) ((1 : ℝ) - 0) = 0 := by
      unfold atan2
      norm_num [Real.arctan_zero]
    unfold calculateAngle
    dsimp only
    rw [e1, e2]
    have e3 : (Real.pi - 0) * 180 / Real.pi = 180 := by
      field_simp
    rw [e3]
    norm_num

/-- C10: `calculateAngle` is symmetric in its flanking points — swapping
proximal and distal negates the arctangent difference, and the absolute
value and the fold are unchanged. -/
theorem calculateAngle_symmetric (A B C : Point) :
    calculateAngle A B C = calculateAngle C B A := by
  unfold calculateAngle
  dsimp only
  have h : atan2 (A.y - B.y) (A.x - B.x) - atan2 (C.y - B.y) (C.x - B.x)
      = -(atan2 (C.y - B.y) (C.x - B.x) - atan2 (A.y - B.y) (A.x - B.x)) := by
    ring
  rw [h, neg_mul, neg_div, abs_neg]

/-- C4 counterexample: for the coincident (degenerate) input
proximal (0,1), vertex (0,0), distal (0,0) the function returns 90, not
the claimed stable default 0. -/
theorem calculateAngle_coincident_counterexample :
    calculateAngle ⟨0, 1⟩ ⟨0, 0⟩ ⟨0, 0⟩ = 90 ∧ (90 : ℝ) ≠ 0 := by
  have hpi := Real.pi_pos
  constructor
  · have e1 : atan2 ((0 : ℝ) - 0) ((0 : ℝ) - 0) = 0 := by
      unfold atan2
      norm_num
    have e2 : atan2 ((1 : ℝ) - 0) ((0 : ℝ) - 0) = Real.pi / 2 := by
      unfold atan2
      norm_num
    unfold calculateAngle
    dsimp only
    rw [e1, e2]
    have e3 : ((0 : ℝ) - Real.pi / 2) * 180 / Real.pi = -90 := by
      field_simp
      ring
    rw [e3]
    norm_num
  · norm_num

/-- C4 amended: on degenerate (coincident-point) inputs the computation
is total and stable — numpy's `arctan2` yields 0 on the zero vector, no
exception or NaN arises, and the result still lies in `[0, 180]`; it is 0
when all three points coincide, but not in general (the counterexample
returns 90), and the exception branch returning 0.0 is not what handles
coincident points. -/
theorem calculateAngle_degenerate :
    (∀ A B : Point, 0 ≤ calculateAngle A B B ∧ calculateAngle A B B ≤ 180)
    ∧ (∀ B C : Point, 0 ≤ calculateAngle B B C ∧ calculateAngle B B C ≤ 180)
    ∧ (∀ B : Point, calculateAngle B B B = 0) := by
  refine ⟨fun A B => calculateAngle_bounds A B B,
    fun B C => calculateAngle_bounds B B C, fun B => ?_⟩
  unfold calculateAngle
  dsimp only
  rw [sub_self]
  norm_num

end VYAAN
